import Mathlib

/-!
Verification of the tidsflyt one-page layout engine.

Shallow embedding of the layout-and-fit code of `creaotrhubn26/tidsflyt`:

* `src/tmp/pdfs/generate_tidum_app_summary_pdf.py` — the PDF variant
  (`wrap_text`, `draw_paragraph`, `draw_bullet`, `build_single_page_pdf`),
  embedded in namespace `Pdf`;
* `src/scripts/generate_onepager_imagegen.py` — the raster variant
  (`wrap_text`, `draw_section`), embedded in namespace `Imagegen`.

Python strings are modelled as `List Char`; the external font-metric
providers (`reportlab.pdfbase.pdfmetrics.stringWidth` and
`PIL.ImageDraw.textlength`) are modelled as function parameters returning
exact rationals; the hardcoded page geometry, content and scale list of
`build_single_page_pdf` are generalized into parameters, with the concrete
values of the source recorded as `letterGeom` / `tidumScales`.
The Python method `str.split` (split on runs of whitespace, dropping empties) is
`pySplit`, and `str.strip` is `pyStrip`.
-/

/-- Whitespace characters recognized by the Python methods `str.split` /
`str.strip()` (space, tab, newline, carriage return, vertical tab,
form feed). -/
def isWS (c : Char) : Bool :=
  c = ' ' || c = '\t' || c = '\n' || c = '\r' || c = Char.ofNat 11 || c = Char.ofNat 12

/-- Worker for `pySplit`: `acc` is the (reversed) token currently being
collected. -/
def pySplitAux : List Char → List Char → List (List Char)
  | [], acc => if acc.isEmpty then [] else [acc.reverse]
  | c :: rest, acc =>
    if isWS c then
      if acc.isEmpty then pySplitAux rest []
      else acc.reverse :: pySplitAux rest []
    else pySplitAux rest (c :: acc)

/-- The Python call `s.split()`: split on runs of whitespace; no empty tokens. -/
def pySplit (s : List Char) : List (List Char) :=
  pySplitAux s []

/-- Remove trailing whitespace (the right half of the Python call `s.strip()`). -/
def rstripWS : List Char → List Char
  | [] => []
  | c :: rest =>
    let r := rstripWS rest
    if r.isEmpty && isWS c then [] else c :: r

/-- The Python call `s.strip()`: drop leading and trailing whitespace. -/
def pyStrip (s : List Char) : List Char :=
  rstripWS (s.dropWhile isWS)

/-- Width-measurement signature of `pdfmetrics.stringWidth(text, font_name,
font_size)`: the injected Metrics Provider of the PDF variant. -/
abbrev MW := List Char → String → ℚ → ℚ

/-- Width-measurement signature of `ImageDraw.textlength(text, font)`: the
injected Metrics Provider of the raster variant. -/
abbrev MWi := List Char → String → ℚ

namespace Pdf

/-- Loop body of the PDF `wrap_text`: `current` is the line buffer (always
holding at least one token), the list argument is the remaining words. -/
def wrapAux (mw : MW) (fn : String) (fs width : ℚ) :
    List Char → List (List Char) → List (List Char)
  | current, [] => [current]
  | current, word :: rest =>
    let candidate := current ++ ' ' :: word
    if mw candidate fn fs ≤ width then wrapAux mw fn fs width candidate rest
    else current :: wrapAux mw fn fs width word rest

/-- `wrap_text(text, font_name, font_size, width)` of
`generate_tidum_app_summary_pdf.py` (lines 10–25): greedy word wrap; a
token-free text yields the single empty line `[""]`. -/
def wrap_text (mw : MW) (text : List Char) (font_name : String)
    (font_size width : ℚ) : List (List Char) :=
  match pySplit text with
  | [] => [[]]
  | w :: ws => wrapAux mw font_name font_size width w ws

/-- Draw calls issued on the reportlab canvas by the PDF script. -/
inductive Prim where
  | setTitle (s : String)
  | setFillColor (c : String)
  | setStrokeColor (c : String)
  | setLineWidth (w : ℚ)
  | setFont (name : String) (size : ℚ)
  | drawString (x y : ℚ) (s : List Char)
  | line (x1 y1 x2 y2 : ℚ)
deriving DecidableEq

/-- The loop `for line in lines: c.drawString(x, y, line); y -= leading`
shared by `draw_paragraph` and the continuation lines of `draw_bullet`. -/
def drawLinesAt (x leading : ℚ) : ℚ → List (List Char) → List Prim × ℚ
  | y, [] => ([], y)
  | y, l :: ls =>
    let r := drawLinesAt x leading (y - leading) ls
    (Prim.drawString x y l :: r.1, r.2)

/-- `draw_paragraph` (lines 28–43): wrap, set the font, draw each line at
`x`, decrementing `y` by `leading` per line; returns the new `y`. -/
def draw_paragraph (mw : MW) (text : List Char) (x y width : ℚ)
    (font_name : String) (font_size leading : ℚ) : List Prim × ℚ :=
  let lines := wrap_text mw text font_name font_size width
  let r := drawLinesAt x leading y lines
  (Prim.setFont font_name font_size :: r.1, r.2)

/-- The bullet marker string `"- "` of `draw_bullet`. -/
def bulletStr : List Char := ['-', ' ']

/-- `draw_bullet` (lines 46–68): measure the marker, wrap the text against
`width - bullet_width`, draw the marker at `x` and the first line at
`x + bullet_width`, then every continuation line at `x + bullet_width`. -/
def draw_bullet (mw : MW) (text : List Char) (x y width : ℚ)
    (font_name : String) (font_size leading : ℚ) : List Prim × ℚ :=
  let bullet_width := mw bulletStr font_name font_size
  let wrapped := wrap_text mw text font_name font_size (width - bullet_width)
  match wrapped with
  | [] => ([Prim.setFont font_name font_size], y)
  | w0 :: rest =>
    let r := drawLinesAt (x + bullet_width) leading (y - leading) rest
    (Prim.setFont font_name font_size ::
       Prim.drawString x y bulletStr ::
       Prim.drawString (x + bullet_width) y w0 :: r.1,
     r.2)

/-- One entry of the `sections` list of `build_single_page_pdf`: a tuple
`(section_title, lines, as_bullets)`. -/
structure PSection where
  title : List Char
  runs : List (List Char)
  as_bullets : Bool
deriving DecidableEq

/-- Page geometry of `build_single_page_pdf` (generalized from the
hardcoded `letter` size and `margin = 48`). -/
structure Geom where
  width : ℚ
  height : ℚ
  margin : ℚ
deriving DecidableEq

/-- The geometry the source instantiates: `letter` page, margin 48. -/
def letterGeom : Geom := ⟨612, 792, 48⟩

/-- The scale candidates the source instantiates (line 131). -/
def tidumScales : List ℚ := [1, 0.96, 0.93, 0.9]

/-- The inner loop `for line in lines:` of one section of
`build_single_page_pdf` (lines 166–188): each run goes through
`draw_bullet` or `draw_paragraph`. -/
def layRuns (mw : MW) (margin content_width body_size body_leading : ℚ)
    (as_bullets : Bool) : ℚ → List (List Char) → List Prim × ℚ
  | y, [] => ([], y)
  | y, run :: rest =>
    let r :=
      if as_bullets then
        draw_bullet mw run margin y content_width "Helvetica" body_size body_leading
      else
        draw_paragraph mw run margin y content_width "Helvetica" body_size body_leading
    let rs := layRuns mw margin content_width body_size body_leading as_bullets r.2 rest
    (r.1 ++ rs.1, rs.2)

/-- One iteration of `for section_title, lines, as_bullets in sections:`
(lines 159–190): heading, body runs, then the `section_gap` decrement. -/
def laySection (mw : MW) (margin content_width heading_size heading_leading
    body_size body_leading section_gap : ℚ) (sec : PSection) (y : ℚ) :
    List Prim × ℚ :=
  let r := layRuns mw margin content_width body_size body_leading
    sec.as_bullets (y - heading_leading) sec.runs
  (Prim.setFillColor "#163B5A" ::
     Prim.setFont "Helvetica-Bold" heading_size ::
     Prim.drawString margin y sec.title ::
     Prim.setFillColor "black" :: r.1,
   r.2 - section_gap)

/-- The section loop of `build_single_page_pdf` with its overflow check
(lines 159–194): after each section, if `y < margin + 8` set the overflow
flag and break, so no later section is laid out. -/
def laySections (mw : MW) (margin content_width heading_size heading_leading
    body_size body_leading section_gap : ℚ) :
    ℚ → List PSection → List Prim × ℚ × Bool
  | y, [] => ([], y, false)
  | y, sec :: rest =>
    let r := laySection mw margin content_width heading_size heading_leading
      body_size body_leading section_gap sec y
    if r.2 < margin + 8 then (r.1, r.2, true)
    else
      let rs := laySections mw margin content_width heading_size heading_leading
        body_size body_leading section_gap r.2 rest
      (r.1 ++ rs.1, rs.2)

/-- The draw calls and final cursor of one scale attempt of
`build_single_page_pdf` (lines 132–194): reset `y` to `height - margin`,
derive all scaled sizes and leadings, draw the title block, then lay out
the sections. -/
structure Attempt where
  prims : List Prim
  y : ℚ
  overflow : Bool
deriving DecidableEq

/-- One full pass of the body of `for scale in [...]` at a given scale:
the canvas built (and saved) for that scale. -/
def layoutAttempt (mw : MW) (g : Geom) (title : List Char)
    (sections : List PSection) (scale : ℚ) : Attempt :=
  let margin := g.margin
  let content_width := g.width - margin * 2
  let y0 := g.height - margin
  let title_size := 24 * scale
  let heading_size := 13.5 * scale
  let body_size := 11.0 * scale
  let title_leading := 28 * scale
  let heading_leading := 17 * scale
  let body_leading := 13.6 * scale
  let section_gap := 8 * scale
  let y1 := y0 - title_leading
  let y2 := y1 - 8 * scale - 1 * scale
  let r := laySections mw margin content_width heading_size heading_leading
    body_size body_leading section_gap y2 sections
  { prims :=
      Prim.setTitle "Tidum App Summary" ::
        Prim.setFillColor "#132031" ::
        Prim.setFont "Helvetica-Bold" title_size ::
        Prim.drawString margin y0 title ::
        Prim.setStrokeColor "#D8DEE9" ::
        Prim.setLineWidth 1 ::
        Prim.line margin (y1 + 4) (g.width - margin) (y1 + 4) :: r.1,
    y := r.2.1,
    overflow := r.2.2 }

/-- The scale loop of `build_single_page_pdf` (lines 131–203): try the
candidates in order; the first attempt without overflow is saved and the
function returns; otherwise every attempt is saved, each overwriting the
previous, so the canvas of the last (smallest) candidate survives.  The result
is the attempt whose canvas the output file ends up holding, paired with
the fit flag; `none` for an empty candidate list (no file written). -/
def build_single_page_pdf (mw : MW) (g : Geom) (title : List Char)
    (sections : List PSection) : List ℚ → Option (Attempt × Bool)
  | [] => none
  | [s] =>
    let a := layoutAttempt mw g title sections s
    some (a, !a.overflow)
  | s :: s2 :: rest =>
    let a := layoutAttempt mw g title sections s
    if a.overflow then build_single_page_pdf mw g title sections (s2 :: rest)
    else some (a, true)

end Pdf

namespace Imagegen

/-- Loop body of the raster `wrap_text`: `line` is the buffer, initially
empty. -/
def wrapAux (mw : MWi) (font : String) (max_width : ℚ) :
    List Char → List (List Char) → List (List Char)
  | line, [] => if line.isEmpty then [] else [line]
  | line, w :: ws =>
    let t := pyStrip (line ++ ' ' :: w)
    if mw t font ≤ max_width then wrapAux mw font max_width t ws
    else line :: wrapAux mw font max_width w ws

/-- `wrap_text(text, font, max_width)` of `generate_onepager_imagegen.py`
(lines 36–49): greedy word wrap with an initially empty buffer that is only
appended at the end if non-empty. -/
def wrap_text (mw : MWi) (text : List Char) (font : String)
    (max_width : ℚ) : List (List Char) :=
  wrapAux mw font max_width [] (pySplit text)

/-- Canvas width of the raster script (`W = 2480`). -/
def canvasW : ℚ := 2480

/-- `margin = 120`. -/
def margin : ℚ := 120

/-- `content_w = W - margin * 2`. -/
def content_w : ℚ := canvasW - margin * 2

/-- `inner_pad = 34` of `draw_section`. -/
def inner_pad : ℚ := 34

/-- `title_h = 56` of `draw_section`. -/
def title_h : ℚ := 56

/-- The visible bullet marker (a bullet glyph and a space) prepended to the
first wrapped line of
a bulleted run. -/
def bulletMarker : List Char := ['•', ' ']

/-- The two-blank continuation marker prepended to every later
wrapped line of a bulleted run. -/
def contMarker : List Char := [' ', ' ']

/-- The `text_lines` list built by `draw_section` (lines 55–63): bulleted
runs are wrapped against `content_w - inner_pad*2 - 40` and prefixed with
the visible marker on the first line and the blank marker on continuation
lines; plain runs are wrapped against `content_w - inner_pad*2`. -/
def sectionTextLines (mw : MWi) (body_font : String)
    (runs : List (List Char)) (bullet : Bool) : List (List Char) :=
  if bullet then
    (runs.map (fun run =>
      match wrap_text mw run body_font (content_w - inner_pad * 2 - 40) with
      | [] => []
      | w0 :: rest => (bulletMarker ++ w0) :: rest.map (fun wl => contMarker ++ wl))).flatten
  else
    (runs.map (fun run =>
      wrap_text mw run body_font (content_w - inner_pad * 2))).flatten

/-- Draw calls issued on the PIL canvas by `draw_section`. -/
inductive Prim where
  | roundedRect (x0 y0 x1 y1 radius : ℚ) (fill outline : String) (w : ℚ)
  | text (x y : ℚ) (s : List Char) (font fill : String)
deriving DecidableEq

/-- The body-line loop of `draw_section` (lines 69–72): each text line at
`x = margin + inner_pad`, advancing `ty` by 44. -/
def drawTextsAt (x : ℚ) (body_font : String) : ℚ → List (List Char) → List Prim
  | _, [] => []
  | ty, l :: ls =>
    Prim.text x ty l body_font "#2a4c53" :: drawTextsAt x body_font (ty + 44) ls

/-- `draw_section(title, lines, bullet, box, border)` of
`generate_onepager_imagegen.py` (lines 51–74), with the global cursor `y`
made explicit: box, section title, wrapped body lines; returns the draw
calls and the new cursor `y + h + 26`. -/
def draw_section (mw : MWi) (h1_font body_font : String) (title : List Char)
    (runs : List (List Char)) (bullet : Bool) (box border : String)
    (y : ℚ) : List Prim × ℚ :=
  let text_lines := sectionTextLines mw body_font runs bullet
  let h := inner_pad + title_h + (text_lines.length : ℚ) * 44 + inner_pad
  (Prim.roundedRect margin y (canvasW - margin) (y + h) 28 box border 3 ::
     Prim.text (margin + inner_pad) (y + inner_pad - 6) title h1_font "#143e47" ::
     drawTextsAt (margin + inner_pad) body_font (y + inner_pad + title_h) text_lines,
   y + h + 26)

end Imagegen

/-! ## Concrete metric functions used by witnesses and counterexamples -/

/-- A character-additive width table: the bullet glyph measures 30, a
space 1, every other character 534. -/
def cwA (c : Char) : ℚ :=
  if c = '•' then 30 else if c = ' ' then 1 else 534

/-- Character-additive raster metric built on `cwA`. -/
def mwA : MWi := fun s _ => (s.map cwA).sum

/-- Character-additive PDF metric built on `cwA`. -/
def mwAp : MW := fun s _ _ => (s.map cwA).sum

/-- A length-monotone metric with a 1-unit base padding: the empty string
measures 1. -/
def mwE : MW := fun s _ _ => 1 + s.length

/-- The constantly-zero PDF metric. -/
def mw0 : MW := fun _ _ _ => 0

/-! ## Lemmas about `pySplit` and `pyStrip` -/

theorem pySplitAux_append_ws_cons {c : Char} (hc : isWS c = true) :
    ∀ (xs : List Char) (acc ys : List Char),
      pySplitAux (xs ++ c :: ys) acc = pySplitAux xs acc ++ pySplitAux ys []
  | [], acc, ys => by
    cases acc <;> simp [pySplitAux, hc]
  | x :: xs, acc, ys => by
    by_cases hx : isWS x = true
    · cases acc <;>
        simp [pySplitAux, hx, pySplitAux_append_ws_cons hc xs]
    · simp only [Bool.not_eq_true] at hx
      simp [pySplitAux, hx, pySplitAux_append_ws_cons hc xs]

theorem mem_pySplitAux :
    ∀ (xs : List Char) (acc l : List Char),
      (∀ a ∈ acc, isWS a = false) → l ∈ pySplitAux xs acc →
        l ≠ [] ∧ ∀ ch ∈ l, isWS ch = false
  | [], acc, l => by
    intro hacc hl
    cases acc with
    | nil => simp [pySplitAux] at hl
    | cons a as =>
      simp [pySplitAux] at hl
      subst hl
      refine ⟨by simp, ?_⟩
      intro ch hch
      exact hacc ch (by simp at hch ⊢; tauto)
  | x :: xs, acc, l => by
    intro hacc hl
    by_cases hx : isWS x = true
    · cases acc with
      | nil =>
        simp only [pySplitAux, hx, if_true, List.isEmpty_nil] at hl
        exact mem_pySplitAux xs [] l (by simp) hl
      | cons a as =>
        simp only [pySplitAux, hx, if_true, List.isEmpty_cons] at hl
        rcases List.mem_cons.mp hl with h | h
        · subst h
          refine ⟨by simp, ?_⟩
          intro ch hch
          exact hacc ch (by simp at hch ⊢; tauto)
        · exact mem_pySplitAux xs [] l (by simp) h
    · simp only [Bool.not_eq_true] at hx
      simp only [pySplitAux, hx, Bool.false_eq_true, if_false] at hl
      refine mem_pySplitAux xs (x :: acc) l ?_ hl
      intro a ha
      rcases List.mem_cons.mp ha with h | h
      · subst h; exact hx
      · exact hacc a h

theorem mem_pySplit {s l : List Char} (hl : l ∈ pySplit s) :
    l ≠ [] ∧ ∀ ch ∈ l, isWS ch = false :=
  mem_pySplitAux s [] l (by simp) hl

theorem pySplitAux_no_ws :
    ∀ (l acc : List Char), (∀ c ∈ l, isWS c = false) →
      acc.reverse ++ l ≠ [] → pySplitAux l acc = [acc.reverse ++ l]
  | [], acc => by
    intro _ hne
    cases acc with
    | nil => simp at hne
    | cons a as => simp [pySplitAux]
  | c :: l, acc => by
    intro hl _
    have hc : isWS c = false := hl c (by simp)
    simp only [pySplitAux, hc, Bool.false_eq_true, if_false]
    have := pySplitAux_no_ws l (c :: acc)
      (fun a ha => hl a (by simp [ha])) (by simp)
    simpa using this

/-- A whitespace-free non-empty string is its own single token. -/
theorem pySplit_token {l : List Char} (hne : l ≠ [])
    (hl : ∀ c ∈ l, isWS c = false) : pySplit l = [l] := by
  simpa using pySplitAux_no_ws l [] hl (by simpa using hne)

/-- Splitting around a single whitespace separator splits the halves
independently. -/
theorem pySplit_append_ws_cons {c : Char} (hc : isWS c = true)
    (xs ys : List Char) :
    pySplit (xs ++ c :: ys) = pySplit xs ++ pySplit ys :=
  pySplitAux_append_ws_cons hc xs [] ys

theorem pySplitAux_dropWhile :
    ∀ xs : List Char, pySplitAux (xs.dropWhile isWS) [] = pySplitAux xs []
  | [] => rfl
  | x :: xs => by
    by_cases hx : isWS x = true
    · simp [List.dropWhile_cons, hx, pySplitAux, pySplitAux_dropWhile xs]
    · simp only [Bool.not_eq_true] at hx
      simp [List.dropWhile_cons, hx, pySplitAux]

theorem pySplitAux_all_ws :
    ∀ (ys acc : List Char), (∀ c ∈ ys, isWS c = true) →
      pySplitAux ys acc = if acc.isEmpty then [] else [acc.reverse]
  | [], acc => by intro _; rfl
  | c :: ys, acc => by
    intro h
    have hc : isWS c = true := h c (by simp)
    have ih := pySplitAux_all_ws ys [] (fun a ha => h a (by simp [ha]))
    cases acc <;> simp [pySplitAux, hc, ih]

theorem pySplitAux_append_all_ws :
    ∀ (xs ys acc : List Char), (∀ c ∈ ys, isWS c = true) →
      pySplitAux (xs ++ ys) acc = pySplitAux xs acc
  | [], ys, acc => by
    intro h
    have := pySplitAux_all_ws ys acc h
    cases acc <;> simpa [pySplitAux] using this
  | x :: xs, ys, acc => by
    intro h
    by_cases hx : isWS x = true
    · cases acc <;> simp [pySplitAux, hx, pySplitAux_append_all_ws xs ys [] h]
    · simp only [Bool.not_eq_true] at hx
      simp [pySplitAux, hx, pySplitAux_append_all_ws xs ys (x :: acc) h]

theorem rstripWS_decomp :
    ∀ xs : List Char, ∃ suf, xs = rstripWS xs ++ suf ∧ ∀ c ∈ suf, isWS c = true
  | [] => ⟨[], by simp [rstripWS]⟩
  | x :: xs => by
    obtain ⟨suf, hdec, hsuf⟩ := rstripWS_decomp xs
    cases hcond : (rstripWS xs).isEmpty && isWS x with
    | true =>
      refine ⟨x :: xs, by simp [rstripWS, hcond], ?_⟩
      rw [Bool.and_eq_true] at hcond
      have hx : isWS x = true := hcond.2
      have hnil : rstripWS xs = [] := by simpa using hcond.1
      intro c hc
      rcases List.mem_cons.mp hc with h | h
      · subst h; exact hx
      · exact hsuf c (by rwa [hdec, hnil, List.nil_append] at h)
    | false =>
      refine ⟨suf, ?_, hsuf⟩
      have hr : rstripWS (x :: xs) = x :: rstripWS xs := by
        simp [rstripWS, hcond]
      rw [hr, List.cons_append, ← hdec]

/-- Stripping does not change the token list. -/
theorem pySplit_pyStrip (s : List Char) : pySplit (pyStrip s) = pySplit s := by
  unfold pyStrip pySplit
  obtain ⟨suf, hdec, hsuf⟩ := rstripWS_decomp (s.dropWhile isWS)
  calc pySplitAux (rstripWS (s.dropWhile isWS)) []
      = pySplitAux (rstripWS (s.dropWhile isWS) ++ suf) [] :=
        (pySplitAux_append_all_ws _ suf [] hsuf).symm
    _ = pySplitAux (s.dropWhile isWS) [] := by rw [← hdec]
    _ = pySplitAux s [] := pySplitAux_dropWhile s

theorem rstripWS_no_ws :
    ∀ l : List Char, (∀ c ∈ l, isWS c = false) → rstripWS l = l
  | [] => by intro _; rfl
  | c :: l => by
    intro h
    have hc : isWS c = false := h c (by simp)
    have ih := rstripWS_no_ws l (fun a ha => h a (by simp [ha]))
    simp [rstripWS, hc, ih]

/-- A token is unchanged by `strip()`. -/
theorem pyStrip_token {w : List Char} (hne : w ≠ [])
    (hw : ∀ c ∈ w, isWS c = false) : pyStrip w = w := by
  unfold pyStrip
  have hdw : w.dropWhile isWS = w := by
    cases w with
    | nil => rfl
    | cons c l => simp [List.dropWhile_cons, hw c (by simp)]
  rw [hdw]
  exact rstripWS_no_ws w hw

/-- `strip()` of a token with one space prepended is the token itself:
the form taken by the candidate of the raster wrapper when its buffer is
empty. -/
theorem pyStrip_space_token {w : List Char} (hne : w ≠ [])
    (hw : ∀ c ∈ w, isWS c = false) : pyStrip (' ' :: w) = w := by
  unfold pyStrip
  have : (' ' :: w).dropWhile isWS = w.dropWhile isWS := by
    simp [List.dropWhile_cons, isWS]
  rw [this]
  have hdw : w.dropWhile isWS = w := by
    cases w with
    | nil => rfl
    | cons c l => simp [List.dropWhile_cons, hw c (by simp)]
  rw [hdw]
  exact rstripWS_no_ws w hw

theorem isWS_space : isWS ' ' = true := by decide

/-- The token predicate: the strings `str.split()` can produce. -/
def IsToken (w : List Char) : Prop :=
  w ≠ [] ∧ ∀ c ∈ w, isWS c = false

theorem isToken_of_mem_pySplit {s w : List Char} (h : w ∈ pySplit s) :
    IsToken w := mem_pySplit h

theorem pySplit_token_append {cur w : List Char} (hw : IsToken w) :
    pySplit (cur ++ ' ' :: w) = pySplit cur ++ [w] := by
  rw [pySplit_append_ws_cons isWS_space, pySplit_token hw.1 hw.2]

/-! ## Lemmas about the PDF wrapper -/

namespace Pdf

/-- Width invariant of the PDF wrap loop: every emitted line either was
accepted as a candidate (so measures within `width`), or is a single
token. -/
theorem wrapAux_width (mw : MW) (fn : String) (fs width : ℚ)
    (toks : List (List Char)) :
    ∀ (rem : List (List Char)) (cur : List Char),
      (mw cur fn fs ≤ width ∨ cur ∈ toks) → (∀ w ∈ rem, w ∈ toks) →
      ∀ l ∈ wrapAux mw fn fs width cur rem,
        mw l fn fs ≤ width ∨ l ∈ toks
  | [], cur => by
    intro hcur _ l hl
    simp only [wrapAux, List.mem_singleton] at hl
    subst hl; exact hcur
  | w :: ws, cur => by
    intro hcur hrem l hl
    simp only [wrapAux] at hl
    by_cases hfit : mw (cur ++ ' ' :: w) fn fs ≤ width
    · rw [if_pos hfit] at hl
      exact wrapAux_width mw fn fs width toks ws (cur ++ ' ' :: w)
        (Or.inl hfit) (fun a ha => hrem a (by simp [ha])) l hl
    · rw [if_neg hfit] at hl
      rcases List.mem_cons.mp hl with h | h
      · subst h; exact hcur
      · exact wrapAux_width mw fn fs width toks ws w
          (Or.inr (hrem w (by simp))) (fun a ha => hrem a (by simp [ha])) l h

/-- Token preservation of the PDF wrap loop: re-splitting the emitted
lines recovers the tokens of the buffer followed by the remaining words. -/
theorem wrapAux_tokens (mw : MW) (fn : String) (fs width : ℚ) :
    ∀ (rem : List (List Char)) (cur : List Char),
      (∀ w ∈ rem, IsToken w) →
      ((wrapAux mw fn fs width cur rem).map pySplit).flatten
        = pySplit cur ++ rem
  | [], cur => by
    intro _
    simp [wrapAux]
  | w :: ws, cur => by
    intro hrem
    have hw : IsToken w := hrem w (by simp)
    have hcand : pySplit (cur ++ ' ' :: w) = pySplit cur ++ [w] :=
      pySplit_token_append hw
    simp only [wrapAux]
    by_cases hfit : mw (cur ++ ' ' :: w) fn fs ≤ width
    · rw [if_pos hfit,
        wrapAux_tokens mw fn fs width ws (cur ++ ' ' :: w)
          (fun a ha => hrem a (by simp [ha])),
        hcand, List.append_assoc]
      rfl
    · rw [if_neg hfit]
      simp only [List.map_cons, List.flatten_cons]
      rw [wrapAux_tokens mw fn fs width ws w
        (fun a ha => hrem a (by simp [ha])), pySplit_token hw.1 hw.2]
      simp

/-- Shape of the PDF wrap loop output: a non-empty list of non-empty
lines, the first of which extends the initial buffer. -/
theorem wrapAux_shape (mw : MW) (fn : String) (fs width : ℚ) :
    ∀ (rem : List (List Char)) (cur : List Char),
      (∀ w ∈ rem, w ≠ []) → cur ≠ [] →
      ∃ l0 ls, wrapAux mw fn fs width cur rem = l0 :: ls ∧
        (∃ r, l0 = cur ++ r) ∧ ∀ l ∈ l0 :: ls, l ≠ []
  | [], cur => by
    intro _ hcur
    exact ⟨cur, [], rfl, ⟨[], by simp⟩, by simpa using hcur⟩
  | w :: ws, cur => by
    intro hrem hcur
    simp only [wrapAux]
    by_cases hfit : mw (cur ++ ' ' :: w) fn fs ≤ width
    · rw [if_pos hfit]
      obtain ⟨l0, ls, heq, ⟨r, hr⟩, hne⟩ :=
        wrapAux_shape mw fn fs width ws (cur ++ ' ' :: w)
          (fun a ha => hrem a (by simp [ha])) (by simp)
      exact ⟨l0, ls, heq, ⟨' ' :: w ++ r, by simp [hr]⟩, hne⟩
    · rw [if_neg hfit]
      obtain ⟨l0, ls, heq, _, hne⟩ :=
        wrapAux_shape mw fn fs width ws w
          (fun a ha => hrem a (by simp [ha])) (hrem w (by simp))
      refine ⟨cur, wrapAux mw fn fs width w ws, rfl, ⟨[], by simp⟩, ?_⟩
      intro l hl
      rcases List.mem_cons.mp hl with h | h
      · subst h; exact hcur
      · rw [heq] at h; exact hne l h

/-- Every line the PDF wrap loop emits ends in a non-whitespace
character, provided the buffer does and the remaining words are tokens. -/
theorem wrapAux_lastChar (mw : MW) (fn : String) (fs width : ℚ) :
    ∀ (rem : List (List Char)) (cur : List Char),
      (∀ w ∈ rem, IsToken w) →
      (∃ l1 c, cur = l1 ++ [c] ∧ isWS c = false) →
      ∀ l ∈ wrapAux mw fn fs width cur rem,
        ∃ l1 c, l = l1 ++ [c] ∧ isWS c = false
  | [], cur => by
    intro _ hcur l hl
    simp only [wrapAux, List.mem_singleton] at hl
    subst hl; exact hcur
  | w :: ws, cur => by
    intro hrem hcur l hl
    have hw : IsToken w := hrem w (by simp)
    have hwlast : ∃ l1 c, w = l1 ++ [c] ∧ isWS c = false := by
      rcases List.eq_nil_or_concat' w with h | ⟨l1, c, h⟩
      · exact absurd h hw.1
      · exact ⟨l1, c, h, hw.2 c (by simp [h])⟩
    simp only [wrapAux] at hl
    by_cases hfit : mw (cur ++ ' ' :: w) fn fs ≤ width
    · rw [if_pos hfit] at hl
      obtain ⟨l1, c, hw1, hc⟩ := hwlast
      refine wrapAux_lastChar mw fn fs width ws (cur ++ ' ' :: w)
        (fun a ha => hrem a (by simp [ha])) ⟨cur ++ ' ' :: l1, c, ?_, hc⟩ l hl
      simp [hw1]
    · rw [if_neg hfit] at hl
      rcases List.mem_cons.mp hl with h | h
      · subst h; exact hcur
      · exact wrapAux_lastChar mw fn fs width ws w
          (fun a ha => hrem a (by simp [ha])) hwlast l h

/-- Under the widest-token precondition, every PDF wrapped line measures
within `width`, except possibly the single empty line produced for a
token-free text. -/
theorem wrap_text_width_le (mw : MW) (t : List Char) (fn : String)
    (fs width : ℚ) (hpre : ∀ w ∈ pySplit t, mw w fn fs ≤ width) :
    ∀ l ∈ wrap_text mw t fn fs width, mw l fn fs ≤ width ∨ l = [] := by
  intro l hl
  unfold wrap_text at hl
  cases hsp : pySplit t with
  | nil => rw [hsp] at hl; simp at hl; subst hl; exact Or.inr rfl
  | cons w ws =>
    rw [hsp] at hl
    have := wrapAux_width mw fn fs width (pySplit t) ws w
      (Or.inr (by simp [hsp])) (fun a ha => by simp [hsp, ha]) l hl
    rcases this with h | h
    · exact Or.inl h
    · exact Or.inl (hpre l h)

/-- Without any precondition: a PDF wrapped line that measures beyond
`width` is a single token of the input (or the empty line of a token-free
input). -/
theorem wrap_text_exceed (mw : MW) (t : List Char) (fn : String)
    (fs width : ℚ) :
    ∀ l ∈ wrap_text mw t fn fs width,
      ¬ mw l fn fs ≤ width → l ∈ pySplit t ∨ l = [] := by
  intro l hl hgt
  unfold wrap_text at hl
  cases hsp : pySplit t with
  | nil => rw [hsp] at hl; simp at hl; subst hl; exact Or.inr rfl
  | cons w ws =>
    rw [hsp] at hl
    have := wrapAux_width mw fn fs width (pySplit t) ws w
      (Or.inr (by simp [hsp])) (fun a ha => by simp [hsp, ha]) l hl
    rcases this with h | h
    · exact absurd h hgt
    · rw [hsp] at h
      exact Or.inl h

/-- Token preservation of the PDF wrapper. -/
theorem wrap_text_tokens (mw : MW) (t : List Char) (fn : String)
    (fs width : ℚ) :
    ((wrap_text mw t fn fs width).map pySplit).flatten = pySplit t := by
  unfold wrap_text
  cases hsp : pySplit t with
  | nil => simp [pySplit, pySplitAux]
  | cons w ws =>
    have hw : IsToken w := isToken_of_mem_pySplit (s := t) (by simp [hsp])
    have htoks : ∀ a ∈ ws, IsToken a := fun a ha =>
      isToken_of_mem_pySplit (s := t) (by simp [hsp, ha])
    rw [wrapAux_tokens mw fn fs width ws w htoks, pySplit_token hw.1 hw.2]
    rfl

/-- For an input with at least one token, the PDF wrapper emits a
non-empty list of non-empty lines whose first line starts with the first
token. -/
theorem wrap_text_shape (mw : MW) (t : List Char) (fn : String)
    (fs width : ℚ) {w : List Char} {ws : List (List Char)}
    (hsp : pySplit t = w :: ws) :
    ∃ l0 ls, wrap_text mw t fn fs width = l0 :: ls ∧
      (∃ r, l0 = w ++ r) ∧ ∀ l ∈ l0 :: ls, l ≠ [] := by
  unfold wrap_text
  rw [hsp]
  have hw : IsToken w := isToken_of_mem_pySplit (s := t) (by simp [hsp])
  exact wrapAux_shape mw fn fs width ws w
    (fun a ha => (isToken_of_mem_pySplit (s := t) (by simp [hsp, ha])).1) hw.1

/-- The PDF wrapper never returns an empty list of lines. -/
theorem wrap_text_eq_cons (mw : MW) (t : List Char) (fn : String)
    (fs width : ℚ) :
    ∃ l0 ls, wrap_text mw t fn fs width = l0 :: ls := by
  cases hsp : pySplit t with
  | nil => exact ⟨[], [], by unfold wrap_text; rw [hsp]⟩
  | cons w ws =>
    obtain ⟨l0, ls, heq, _, _⟩ := wrap_text_shape mw t fn fs width hsp
    exact ⟨l0, ls, heq⟩

/-- No PDF wrapped line is the bullet marker `"- "` (lines never end in
whitespace). -/
theorem wrap_text_ne_bulletStr (mw : MW) (t : List Char) (fn : String)
    (fs width : ℚ) :
    ∀ l ∈ wrap_text mw t fn fs width, l ≠ bulletStr := by
  intro l hl
  unfold wrap_text at hl
  cases hsp : pySplit t with
  | nil =>
    rw [hsp] at hl; simp at hl; subst hl
    intro h; exact absurd h.symm (by simp [bulletStr])
  | cons w ws =>
    rw [hsp] at hl
    have hw : IsToken w := isToken_of_mem_pySplit (s := t) (by simp [hsp])
    have hwlast : ∃ l1 c, w = l1 ++ [c] ∧ isWS c = false := by
      rcases List.eq_nil_or_concat' w with h | ⟨l1, c, h⟩
      · exact absurd h hw.1
      · exact ⟨l1, c, h, hw.2 c (by simp [h])⟩
    obtain ⟨l1, c, hlc, hc⟩ := wrapAux_lastChar mw fn fs width ws w
      (fun a ha => isToken_of_mem_pySplit (s := t) (by simp [hsp, ha]))
      hwlast l hl
    intro hbad
    rw [hbad] at hlc
    have : some ' ' = some c := by
      calc some ' ' = bulletStr.getLast? := by simp [bulletStr]
        _ = (l1 ++ [c]).getLast? := by rw [hlc]
        _ = some c := List.getLast?_concat l1
    have : c = ' ' := by injection this.symm
    rw [this] at hc
    exact absurd isWS_space (by simp [hc])

end Pdf

/-! ## Lemmas about the raster wrapper -/

namespace Imagegen

/-- Width invariant of the raster wrap loop under the widest-token
precondition: every emitted line measures within `max_width`. -/
theorem wrapAux_width_img (mw : MWi) (font : String) (W : ℚ)
    (toks : List (List Char)) (hpre : ∀ w ∈ toks, mw w font ≤ W) :
    ∀ (rem : List (List Char)) (line : List Char),
      (∀ w ∈ rem, w ∈ toks ∧ IsToken w) →
      (line = [] ∨ mw line font ≤ W) →
      ∀ l ∈ wrapAux mw font W line rem, mw l font ≤ W
  | [], line => by
    intro _ hinv l hl
    cases hline : line.isEmpty
    · simp only [wrapAux, hline, Bool.false_eq_true, if_false,
        List.mem_singleton] at hl
      subst hl
      rcases hinv with h | h
      · exact absurd h (by simpa using hline)
      · exact h
    · simp [wrapAux, hline] at hl
  | w :: ws, line => by
    intro hrem hinv l hl
    have hw := hrem w (by simp)
    simp only [wrapAux] at hl
    by_cases hfit : mw (pyStrip (line ++ ' ' :: w)) font ≤ W
    · rw [if_pos hfit] at hl
      exact wrapAux_width_img mw font W toks hpre ws _
        (fun a ha => hrem a (by simp [ha])) (Or.inr hfit) l hl
    · rw [if_neg hfit] at hl
      have hlinene : line ≠ [] := by
        intro h
        subst h
        rw [List.nil_append, pyStrip_space_token hw.2.1 hw.2.2] at hfit
        exact hfit (hpre w hw.1)
      rcases List.mem_cons.mp hl with h | h
      · subst h
        rcases hinv with h | h
        · exact absurd h hlinene
        · exact h
      · exact wrapAux_width_img mw font W toks hpre ws w
          (fun a ha => hrem a (by simp [ha]))
          (Or.inr (hpre w hw.1)) l h

/-- Without the precondition: a raster wrapped line that measures beyond
`max_width` is a single token, or the empty line that the loop flushes
when its very first candidate already exceeds `max_width`. -/
theorem wrapAux_exceed (mw : MWi) (font : String) (W : ℚ)
    (toks : List (List Char)) :
    ∀ (rem : List (List Char)) (line : List Char),
      (∀ w ∈ rem, w ∈ toks) →
      (line = [] ∨ line ∈ toks ∨ mw line font ≤ W) →
      ∀ l ∈ wrapAux mw font W line rem,
        ¬ mw l font ≤ W → l ∈ toks ∨ l = []
  | [], line => by
    intro _ hinv l hl hgt
    cases hline : line.isEmpty
    · simp only [wrapAux, hline, Bool.false_eq_true, if_false,
        List.mem_singleton] at hl
      subst hl
      rcases hinv with h | h | h
      · exact Or.inr h
      · exact Or.inl h
      · exact absurd h hgt
    · simp [wrapAux, hline] at hl
  | w :: ws, line => by
    intro hrem hinv l hl hgt
    simp only [wrapAux] at hl
    by_cases hfit : mw (pyStrip (line ++ ' ' :: w)) font ≤ W
    · rw [if_pos hfit] at hl
      exact wrapAux_exceed mw font W toks ws _
        (fun a ha => hrem a (by simp [ha]))
        (Or.inr (Or.inr hfit)) l hl hgt
    · rw [if_neg hfit] at hl
      rcases List.mem_cons.mp hl with h | h
      · subst h
        rcases hinv with h | h | h
        · exact Or.inr h
        · exact Or.inl h
        · exact absurd h hgt
      · exact wrapAux_exceed mw font W toks ws w
          (fun a ha => hrem a (by simp [ha]))
          (Or.inr (Or.inl (hrem w (by simp)))) l h hgt

/-- Token preservation of the raster wrap loop. -/
theorem wrapAux_tokens_img (mw : MWi) (font : String) (W : ℚ) :
    ∀ (rem : List (List Char)) (line : List Char),
      (∀ w ∈ rem, IsToken w) →
      ((wrapAux mw font W line rem).map pySplit).flatten
        = pySplit line ++ rem
  | [], line => by
    intro _
    cases hline : line.isEmpty
    · simp [wrapAux, hline]
    · have : line = [] := by simpa using hline
      subst this
      simp [wrapAux, pySplit, pySplitAux]
  | w :: ws, line => by
    intro hrem
    have hw : IsToken w := hrem w (by simp)
    have hcand : pySplit (pyStrip (line ++ ' ' :: w)) = pySplit line ++ [w] := by
      rw [pySplit_pyStrip, pySplit_token_append hw]
    simp only [wrapAux]
    by_cases hfit : mw (pyStrip (line ++ ' ' :: w)) font ≤ W
    · rw [if_pos hfit,
        wrapAux_tokens_img mw font W ws _ (fun a ha => hrem a (by simp [ha])),
        hcand, List.append_assoc]
      rfl
    · rw [if_neg hfit]
      simp only [List.map_cons, List.flatten_cons]
      rw [wrapAux_tokens_img mw font W ws w (fun a ha => hrem a (by simp [ha])),
        pySplit_token hw.1 hw.2]
      simp

/-- Under the widest-token precondition, every raster wrapped line
measures within `max_width`. -/
theorem wrap_text_width_le_img (mw : MWi) (t : List Char) (font : String)
    (W : ℚ) (hpre : ∀ w ∈ pySplit t, mw w font ≤ W) :
    ∀ l ∈ wrap_text mw t font W, mw l font ≤ W := by
  intro l hl
  exact wrapAux_width_img mw font W (pySplit t) hpre (pySplit t) []
    (fun w hw => ⟨hw, isToken_of_mem_pySplit hw⟩) (Or.inl rfl) l hl

/-- Without the precondition: a raster wrapped line beyond `max_width` is
a single token of the input or the empty string. -/
theorem wrap_text_exceed_img (mw : MWi) (t : List Char) (font : String)
    (W : ℚ) :
    ∀ l ∈ wrap_text mw t font W,
      ¬ mw l font ≤ W → l ∈ pySplit t ∨ l = [] := by
  intro l hl
  exact wrapAux_exceed mw font W (pySplit t) (pySplit t) []
    (fun w hw => hw) (Or.inl rfl) l hl

/-- Token preservation of the raster wrapper. -/
theorem wrap_text_tokens_img (mw : MWi) (t : List Char) (font : String)
    (W : ℚ) :
    ((wrap_text mw t font W).map pySplit).flatten = pySplit t := by
  unfold wrap_text
  rw [wrapAux_tokens_img mw font W (pySplit t) []
    (fun a ha => isToken_of_mem_pySplit ha)]
  simp [pySplit, pySplitAux]

end Imagegen

/-! ## Lemmas about the scale loop of `build_single_page_pdf` -/

namespace Pdf

/-- Recognizer for a draw call of the bullet marker string. -/
def isMarkerPrim : Prim → Bool
  | .drawString _ _ s => s == bulletStr
  | _ => false

/-- Every draw call emitted by the line loop is a `drawString` at the
given `x`, of one of the given lines. -/
theorem drawLinesAt_mem (x leading : ℚ) :
    ∀ (ls : List (List Char)) (y : ℚ),
      ∀ p ∈ (drawLinesAt x leading y ls).1,
        ∃ b s, p = Prim.drawString x b s ∧ s ∈ ls
  | [], y => by intro p hp; simp [drawLinesAt] at hp
  | l :: ls, y => by
    intro p hp
    simp only [drawLinesAt] at hp
    rcases List.mem_cons.mp hp with h | h
    · exact ⟨y, l, h, by simp⟩
    · obtain ⟨b, s, hps, hs⟩ := drawLinesAt_mem x leading ls (y - leading) p h
      exact ⟨b, s, hps, by simp [hs]⟩

/-- An overflowing head candidate is discarded: the loop continues with
the remaining candidates (the later save overwrites the earlier one). -/
theorem build_cons_of_overflow {mw : MW} {g : Geom} {title : List Char}
    {secs : List PSection} {x : ℚ}
    (h : (layoutAttempt mw g title secs x).overflow = true)
    {rest : List ℚ} (hne : rest ≠ []) :
    build_single_page_pdf mw g title secs (x :: rest)
      = build_single_page_pdf mw g title secs rest := by
  cases rest with
  | nil => exact absurd rfl hne
  | cons r rs =>
    simp only [build_single_page_pdf, h, if_true]

/-- A fitting head candidate is returned immediately with
`fitAchieved = true`; the remaining candidates are never tried. -/
theorem build_cons_of_fit {mw : MW} {g : Geom} {title : List Char}
    {secs : List PSection} {s : ℚ}
    (h : (layoutAttempt mw g title secs s).overflow = false)
    (rest : List ℚ) :
    build_single_page_pdf mw g title secs (s :: rest)
      = some (layoutAttempt mw g title secs s, true) := by
  cases rest with
  | nil => simp [build_single_page_pdf, h]
  | cons r rs => simp [build_single_page_pdf, h]

/-- A prefix of overflowing candidates does not affect the result. -/
theorem build_skip_overflow_prefix {mw : MW} {g : Geom} {title : List Char}
    {secs : List PSection} :
    ∀ (pre : List ℚ), (∀ x ∈ pre, (layoutAttempt mw g title secs x).overflow = true) →
      ∀ (post : List ℚ), post ≠ [] →
        build_single_page_pdf mw g title secs (pre ++ post)
          = build_single_page_pdf mw g title secs post
  | [], _, post, _ => by simp
  | x :: pre, hpre, post, hpost => by
    rw [List.cons_append,
      build_cons_of_overflow (hpre x (by simp))
        (by simp [hpost]),
      build_skip_overflow_prefix pre (fun a ha => hpre a (by simp [ha])) post hpost]

/-- The result of the driver is always the pure single-scale layout of one
of the candidates, paired with the negation of the overflow
flag. -/
theorem build_result_shape (mw : MW) (g : Geom) (title : List Char)
    (secs : List PSection) :
    ∀ scales : List ℚ,
      build_single_page_pdf mw g title secs scales = none ∨
      ∃ s ∈ scales,
        build_single_page_pdf mw g title secs scales
          = some (layoutAttempt mw g title secs s,
              !(layoutAttempt mw g title secs s).overflow)
  | [] => Or.inl rfl
  | [s] => Or.inr ⟨s, by simp, rfl⟩
  | s :: s2 :: rest => by
    cases hov : (layoutAttempt mw g title secs s).overflow
    · refine Or.inr ⟨s, by simp, ?_⟩
      rw [build_cons_of_fit hov, hov]
      rfl
    · rw [build_cons_of_overflow hov (by simp)]
      rcases build_result_shape mw g title secs (s2 :: rest) with h | ⟨x, hx, h⟩
      · exact Or.inl h
      · exact Or.inr ⟨x, by simp [List.mem_cons.mp hx], h⟩

/-- When every candidate overflows, the result is the attempt at the last
(smallest) candidate, with `fitAchieved = false`. -/
theorem build_all_overflow (mw : MW) (g : Geom) (title : List Char)
    (secs : List PSection) :
    ∀ (scales : List ℚ) (slast : ℚ), scales.getLast? = some slast →
      (∀ x ∈ scales, (layoutAttempt mw g title secs x).overflow = true) →
      build_single_page_pdf mw g title secs scales
        = some (layoutAttempt mw g title secs slast, false)
  | [], slast, h, _ => by simp at h
  | [s], slast, h, hall => by
    have hs : s = slast := by simpa using h
    subst hs
    have hov := hall s (by simp)
    simp [build_single_page_pdf, hov]
  | s :: s2 :: rest, slast, h, hall => by
    rw [build_cons_of_overflow (hall s (by simp)) (by simp)]
    exact build_all_overflow mw g title secs (s2 :: rest) slast
      (by simpa using h) (fun a ha => hall a (by simp [ha]))

end Pdf

/-! ## Concrete inputs for witnesses and counterexamples -/

/-- The text `"aa bb"`. -/
def runAabb : List Char := ['a', 'a', ' ', 'b', 'b']

/-- The token `"aa"`. -/
def tokAa : List Char := ['a', 'a']

/-- The token `"bb"`. -/
def tokBb : List Char := ['b', 'b']

/-- A section with no runs (valid: heading only). -/
def secEmpty : Pdf.PSection := ⟨['S'], [], false⟩

/-- A one-letter page title. -/
def titleT : List Char := ['T']

/-- A 300×160 page with margin 48: at scale 1 the title block (37 units)
plus one empty section (25 units) leaves the cursor at 50. -/
def cexGeom : Pdf.Geom := ⟨300, 160, 48⟩

/-- A 300×100 page with margin 48: every scale candidate overflows. -/
def tinyGeom : Pdf.Geom := ⟨300, 100, 48⟩

/-! ## Evaluation lemmas for the concrete inputs

(`Rat` arithmetic is `@[irreducible]`, so concrete layouts are evaluated
with `norm_num` rather than `decide`.) -/

theorem cexGeom_overflow_at_one :
    (Pdf.layoutAttempt mw0 cexGeom titleT [secEmpty] 1).overflow = true := by
  norm_num [Pdf.layoutAttempt, Pdf.laySections, Pdf.laySection, Pdf.layRuns,
    cexGeom, secEmpty, mw0]

theorem cexGeom_fit_at_half :
    (Pdf.layoutAttempt mw0 cexGeom titleT [secEmpty] (1/2)).overflow = false := by
  norm_num [Pdf.layoutAttempt, Pdf.laySections, Pdf.laySection, Pdf.layRuns,
    cexGeom, secEmpty, mw0]

theorem cexGeom_y_at_one :
    (Pdf.layoutAttempt mw0 cexGeom titleT [secEmpty] 1).y = 50 := by
  norm_num [Pdf.layoutAttempt, Pdf.laySections, Pdf.laySection, Pdf.layRuns,
    cexGeom, secEmpty, mw0]

theorem tinyGeom_overflow_at_one :
    (Pdf.layoutAttempt mw0 tinyGeom titleT [secEmpty] 1).overflow = true := by
  norm_num [Pdf.layoutAttempt, Pdf.laySections, Pdf.laySection, Pdf.layRuns,
    tinyGeom, secEmpty, mw0]

theorem tinyGeom_overflow_at_nine_tenths :
    (Pdf.layoutAttempt mw0 tinyGeom titleT [secEmpty] 0.9).overflow = true := by
  norm_num [Pdf.layoutAttempt, Pdf.laySections, Pdf.laySection, Pdf.layRuns,
    tinyGeom, secEmpty, mw0]

/-! ## Claims -/

/-- **C1** (amended).  `build_single_page_pdf` tries the scale candidates
in order, laying out from scratch per candidate, and returns the layout of
the earliest candidate whose layout pass never leaves the cursor below
`margin + 8` after a section (the fit test of the code — not the claimed
"total height ≤ pageHeight − margin"); no later candidate is chosen when
an earlier one fits. -/
theorem build_selects_earliest_fitting (mw : MW) (g : Pdf.Geom)
    (title : List Char) (secs : List Pdf.PSection)
    (pre : List ℚ) (s : ℚ) (post : List ℚ)
    (hpre : ∀ x ∈ pre, (Pdf.layoutAttempt mw g title secs x).overflow = true)
    (hs : (Pdf.layoutAttempt mw g title secs s).overflow = false) :
    Pdf.build_single_page_pdf mw g title secs (pre ++ s :: post)
      = some (Pdf.layoutAttempt mw g title secs s, true) := by
  rw [Pdf.build_skip_overflow_prefix pre hpre (s :: post) (by simp)]
  exact Pdf.build_cons_of_fit hs post

/-- Witness for C1: scale 1 overflows on `cexGeom` but scale 1/2 fits, so
the driver returns the 1/2 attempt with `fitAchieved = true`. -/
theorem build_selects_earliest_fitting_witness :
    Pdf.build_single_page_pdf mw0 cexGeom titleT [secEmpty] ([1] ++ (1/2) :: [])
      = some (Pdf.layoutAttempt mw0 cexGeom titleT [secEmpty] (1/2), true) :=
  build_selects_earliest_fitting mw0 cexGeom titleT [secEmpty]
    [1] (1/2) []
    (by
      intro x hx
      rw [List.mem_singleton] at hx
      subst hx
      exact cexGeom_overflow_at_one)
    cexGeom_fit_at_half

/-- **C1 counterexample**: on `cexGeom` at scale 1 the total laid-out
height is 62 ≤ pageHeight − margin = 112 (and the final cursor 50 even
stays above the bottom margin 48), so per the claim the single candidate
fits and must be returned with `fitAchieved = true`; the code instead
reports overflow (`50 < margin + 8`) and returns `fitAchieved = false`. -/
theorem build_selects_earliest_fitting_counterexample :
    (Pdf.build_single_page_pdf mw0 cexGeom titleT [secEmpty] [1]).map Prod.snd
      = some false ∧
    (cexGeom.height - cexGeom.margin)
        - (Pdf.layoutAttempt mw0 cexGeom titleT [secEmpty] 1).y
      ≤ cexGeom.height - cexGeom.margin ∧
    cexGeom.margin ≤ (Pdf.layoutAttempt mw0 cexGeom titleT [secEmpty] 1).y := by
  refine ⟨?_, ?_, ?_⟩
  · simp [Pdf.build_single_page_pdf, cexGeom_overflow_at_one]
  · rw [cexGeom_y_at_one]; norm_num [cexGeom]
  · rw [cexGeom_y_at_one]; norm_num [cexGeom]

/-- **C4**.  When every scale candidate overflows, the driver does not
throw: it still returns (the file still holds) the layout computed at the
last, smallest candidate, together with `fitAchieved = false`. -/
theorem build_overflow_returns_last (mw : MW) (g : Pdf.Geom)
    (title : List Char) (secs : List Pdf.PSection)
    (scales : List ℚ) (slast : ℚ) (hlast : scales.getLast? = some slast)
    (hall : ∀ x ∈ scales, (Pdf.layoutAttempt mw g title secs x).overflow = true) :
    Pdf.build_single_page_pdf mw g title secs scales
      = some (Pdf.layoutAttempt mw g title secs slast, false) :=
  Pdf.build_all_overflow mw g title secs scales slast hlast hall

/-- Witness for C4: on `tinyGeom` both candidates 1 and 0.9 overflow and
the driver returns the 0.9 attempt with `fitAchieved = false`. -/
theorem build_overflow_returns_last_witness :
    Pdf.build_single_page_pdf mw0 tinyGeom titleT [secEmpty] [1, 0.9]
      = some (Pdf.layoutAttempt mw0 tinyGeom titleT [secEmpty] 0.9, false) :=
  build_overflow_returns_last mw0 tinyGeom titleT [secEmpty] [1, 0.9] 0.9
    (by simp)
    (by
      intro x hx
      rw [List.mem_cons, List.mem_singleton] at hx
      rcases hx with hx | hx <;> subst hx
      · exact tinyGeom_overflow_at_one
      · exact tinyGeom_overflow_at_nine_tenths)

/-- **C7**.  Every scale attempt starts with the cursor reset to
`height − margin` — the title is drawn there at the scaled font of that
attempt — and the result of the driver is always the pure single-scale layout of
one candidate, so no geometry computed during one attempt can influence a
later attempt. -/
theorem attempts_reset_and_independent (mw : MW) (g : Pdf.Geom)
    (title : List Char) (secs : List Pdf.PSection) (scales : List ℚ)
    (s : ℚ) :
    (Pdf.layoutAttempt mw g title secs s).prims.take 4 =
      [Pdf.Prim.setTitle "Tidum App Summary",
       Pdf.Prim.setFillColor "#132031",
       Pdf.Prim.setFont "Helvetica-Bold" (24 * s),
       Pdf.Prim.drawString g.margin (g.height - g.margin) title] ∧
    (Pdf.build_single_page_pdf mw g title secs scales = none ∨
     ∃ x ∈ scales,
       Pdf.build_single_page_pdf mw g title secs scales
         = some (Pdf.layoutAttempt mw g title secs x,
             !(Pdf.layoutAttempt mw g title secs x).overflow)) :=
  ⟨rfl, Pdf.build_result_shape mw g title secs scales⟩

/-- **C8**.  `build_single_page_pdf` is deterministic: two runs over
pointwise-equal width-measurement functions (the only external input)
produce identical results — same chosen scale, same line breaks, same
draw calls at the same positions. -/
theorem build_deterministic (mw mw2 : MW) (g : Pdf.Geom)
    (title : List Char) (secs : List Pdf.PSection) (scales : List ℚ)
    (h : ∀ t f s, mw t f s = mw2 t f s) :
    Pdf.build_single_page_pdf mw g title secs scales
      = Pdf.build_single_page_pdf mw2 g title secs scales := by
  have he : mw = mw2 := funext fun t => funext fun f => funext fun s => h t f s
  rw [he]

/-- Witness for C8 at a concrete metric, geometry and content. -/
theorem build_deterministic_witness :
    Pdf.build_single_page_pdf mwAp Pdf.letterGeom titleT [secEmpty] Pdf.tidumScales
      = Pdf.build_single_page_pdf mwAp Pdf.letterGeom titleT [secEmpty] Pdf.tidumScales :=
  build_deterministic mwAp mwAp Pdf.letterGeom titleT [secEmpty] Pdf.tidumScales
    (fun _ _ _ => rfl)

/-- **C10**.  Overflow is detected only after a whole section has been
laid out (the test is on the cursor left by `laySection`, against
`margin + 8`), and detection breaks out of the section loop: the result on
`sec :: rest` does not depend on `rest` at all, so sections after the
first overflowing one are never laid out, and the attempt kept at the
smallest scale is this truncated layout. -/
theorem overflow_truncates_sections (mw : MW)
    (margin content_width heading_size heading_leading body_size
      body_leading section_gap : ℚ)
    (sec : Pdf.PSection) (rest rest2 : List Pdf.PSection) (y : ℚ)
    (hov : (Pdf.laySection mw margin content_width heading_size
        heading_leading body_size body_leading section_gap sec y).2
      < margin + 8) :
    Pdf.laySections mw margin content_width heading_size heading_leading
        body_size body_leading section_gap y (sec :: rest)
      = Pdf.laySections mw margin content_width heading_size heading_leading
        body_size body_leading section_gap y (sec :: rest2) ∧
    (Pdf.laySections mw margin content_width heading_size heading_leading
        body_size body_leading section_gap y (sec :: rest)).2.2 = true := by
  constructor
  · simp only [Pdf.laySections]
    rw [if_pos hov, if_pos hov]
  · simp only [Pdf.laySections]
    rw [if_pos hov]

/-- Witness for C10: a concrete overflowing section at `y = 60` makes the
layout of `[sec, sec]` equal that of `[sec]`, with the overflow flag
set. -/
theorem overflow_truncates_sections_witness :
    Pdf.laySections mw0 48 204 13.5 17 11 13.6 8 60 [secEmpty, secEmpty]
      = Pdf.laySections mw0 48 204 13.5 17 11 13.6 8 60 [secEmpty] ∧
    (Pdf.laySections mw0 48 204 13.5 17 11 13.6 8 60 [secEmpty, secEmpty]).2.2
      = true :=
  overflow_truncates_sections mw0 48 204 13.5 17 11 13.6 8 secEmpty
    [secEmpty] [] 60
    (by norm_num [Pdf.laySection, Pdf.layRuns, secEmpty, mw0])

/-- **C2** (amended).  With `maxWidth` at least the measured width of
every token, every wrapped line measures within `maxWidth` — except, for
the PDF variant, the single empty line returned for a token-free text.
Without the precondition, a line that exceeds `maxWidth` is a single
token of the input, or the empty line (PDF: token-free input; raster: the
empty buffer flushed when the first token of a line already exceeds
`maxWidth`). -/
theorem wrap_lines_within_width (mw : MW) (mwi : MWi) (t : List Char)
    (fn font : String) (fs W Wi : ℚ) :
    ((∀ w ∈ pySplit t, mw w fn fs ≤ W) →
      ∀ l ∈ Pdf.wrap_text mw t fn fs W, mw l fn fs ≤ W ∨ l = []) ∧
    (∀ l ∈ Pdf.wrap_text mw t fn fs W,
      ¬ mw l fn fs ≤ W → l ∈ pySplit t ∨ l = []) ∧
    ((∀ w ∈ pySplit t, mwi w font ≤ Wi) →
      ∀ l ∈ Imagegen.wrap_text mwi t font Wi, mwi l font ≤ Wi) ∧
    (∀ l ∈ Imagegen.wrap_text mwi t font Wi,
      ¬ mwi l font ≤ Wi → l ∈ pySplit t ∨ l = []) :=
  ⟨Pdf.wrap_text_width_le mw t fn fs W,
   Pdf.wrap_text_exceed mw t fn fs W,
   Imagegen.wrap_text_width_le_img mwi t font Wi,
   Imagegen.wrap_text_exceed_img mwi t font Wi⟩

theorem cwA_a : cwA 'a' = 534 := rfl

theorem cwA_b : cwA 'b' = 534 := rfl

theorem cwA_bullet : cwA '•' = 30 := rfl

theorem cwA_space : cwA ' ' = 1 := rfl

/-- Witness for C2: both wrappers applied to `"aa bb"` (one wrapped line,
the text itself) under a metric whose tokens measure 1068, against
maxWidth 2150. -/
theorem wrap_lines_within_width_witness :
    (mwAp runAabb "F" 11 ≤ 2150 ∨ runAabb = []) ∧
    mwA runAabb "F" ≤ 2150 := by
  have hsplit : pySplit runAabb = [tokAa, tokBb] := by decide
  have hp : ∀ w ∈ pySplit runAabb, mwAp w "F" 11 ≤ (2150 : ℚ) := by
    intro w hw
    rw [hsplit] at hw
    rcases List.mem_cons.mp hw with h | h
    · subst h; norm_num [mwAp, tokAa, cwA_a]
    · rw [List.mem_singleton] at h; subst h; norm_num [mwAp, tokBb, cwA_b]
  have hpi : ∀ w ∈ pySplit runAabb, mwA w "F" ≤ (2150 : ℚ) := by
    intro w hw
    rw [hsplit] at hw
    rcases List.mem_cons.mp hw with h | h
    · subst h; norm_num [mwA, tokAa, cwA_a]
    · rw [List.mem_singleton] at h; subst h; norm_num [mwA, tokBb, cwA_b]
  have hcand : tokAa ++ ' ' :: tokBb = runAabb := by decide
  have hrunp : mwAp runAabb "F" 11 = 2137 := by
    norm_num [mwAp, runAabb, cwA_a, cwA_b, cwA_space]
  have hrunA : mwA runAabb "F" = 2137 := by
    norm_num [mwA, runAabb, cwA_a, cwA_b, cwA_space]
  have haaA : mwA tokAa "F" = 1068 := by norm_num [mwA, tokAa, cwA_a]
  have hstrip1 : pyStrip ([] ++ ' ' :: tokAa) = tokAa := by decide
  have hstrip2 : pyStrip (tokAa ++ ' ' :: tokBb) = runAabb := by decide
  have hw : Pdf.wrap_text mwAp runAabb "F" 11 2150 = [runAabb] := by
    unfold Pdf.wrap_text
    rw [hsplit]
    show Pdf.wrapAux mwAp "F" 11 2150 tokAa [tokBb] = [runAabb]
    rw [Pdf.wrapAux, hcand]
    rw [if_pos (by rw [hrunp]; norm_num)]
    rw [Pdf.wrapAux]
  have hwi : Imagegen.wrap_text mwA runAabb "F" 2150 = [runAabb] := by
    rw [Imagegen.wrap_text, hsplit]
    rw [Imagegen.wrapAux, hstrip1]
    rw [if_pos (by rw [haaA]; norm_num)]
    rw [Imagegen.wrapAux, hstrip2]
    rw [if_pos (by rw [hrunA]; norm_num)]
    rw [Imagegen.wrapAux]
    simp [runAabb]
  refine ⟨?_, ?_⟩
  · exact (wrap_lines_within_width mwAp mwA runAabb "F" "F" 11 2150 2150).1
      hp runAabb (by rw [hw]; simp)
  · exact (wrap_lines_within_width mwAp mwA runAabb "F" "F" 11 2150 2150).2.2.1
      hpi runAabb (by rw [hwi]; simp)

/-- **C2 counterexample**: with a length-monotone metric that gives the
empty string width 1, the PDF wrap of the empty text (whose widest-token
precondition holds vacuously) returns the empty line, which measures
beyond maxWidth 1/2 yet is not a token — contradicting both halves of the
claim as stated. -/
theorem wrap_lines_within_width_counterexample :
    pySplit ([] : List Char) = [] ∧
    Pdf.wrap_text mwE [] "F" 11 (1/2) = [[]] ∧
    ¬ mwE [] "F" 11 ≤ (1/2 : ℚ) ∧
    [] ∉ pySplit ([] : List Char) := by
  refine ⟨rfl, rfl, ?_, ?_⟩
  · norm_num [mwE]
  · intro h
    simp [pySplit, pySplitAux] at h

/-- **C3**.  Splitting the wrapped lines on whitespace and concatenating
the token lists in line order yields exactly the token sequence of the
input: no token dropped, none duplicated, order preserved — for both
wrappers, for every metric and width. -/
theorem wrap_preserves_tokens (mw : MW) (mwi : MWi) (t : List Char)
    (fn font : String) (fs W Wi : ℚ) :
    ((Pdf.wrap_text mw t fn fs W).map pySplit).flatten = pySplit t ∧
    ((Imagegen.wrap_text mwi t font Wi).map pySplit).flatten = pySplit t :=
  ⟨Pdf.wrap_text_tokens mw t fn fs W,
   Imagegen.wrap_text_tokens_img mwi t font Wi⟩

/-- **C5** (amended).  The PDF wrap of the empty string returns exactly
one line, the empty string; the raster variant instead returns zero
lines for the empty string. -/
theorem wrap_empty_text (mw : MW) (mwi : MWi) (fn font : String)
    (fs W Wi : ℚ) :
    Pdf.wrap_text mw [] fn fs W = [[]] ∧
    Imagegen.wrap_text mwi [] font Wi = [] :=
  ⟨rfl, rfl⟩

/-- **C5 counterexample**: the raster `wrap_text` returns zero lines for
the empty string, not the claimed single empty line. -/
theorem wrap_empty_text_counterexample :
    Imagegen.wrap_text mwA [] "F" 10 = [] ∧
    ([] : List (List Char)) ≠ [[]] :=
  ⟨rfl, by decide⟩

/-- **C9** (amended).  For every input text containing at least one
token, the PDF `wrap_text` never emits an empty line, and the first
output line begins with the first token. -/
theorem wrap_nonempty_lines (mw : MW) (t : List Char) (fn : String)
    (fs W : ℚ) (w : List Char) (ws : List (List Char))
    (hsp : pySplit t = w :: ws) :
    ∃ l0 ls, Pdf.wrap_text mw t fn fs W = l0 :: ls ∧
      (∃ r, l0 = w ++ r) ∧ ∀ l ∈ l0 :: ls, l ≠ [] :=
  Pdf.wrap_text_shape mw t fn fs W hsp

/-- Witness for C9 at the single-token text `"aa"`: no empty line in the
output. -/
theorem wrap_nonempty_lines_witness :
    [] ∉ Pdf.wrap_text mwAp tokAa "F" 11 9 := by
  obtain ⟨l0, ls, heq, _, hne⟩ :=
    wrap_nonempty_lines mwAp tokAa "F" 11 9 tokAa [] (by decide)
  rw [heq]
  intro hc
  exact hne [] hc rfl

/-- **C9 counterexample**: the whitespace-only text `" "` is non-empty,
yet the PDF `wrap_text` emits an empty line for it. -/
theorem wrap_nonempty_lines_counterexample :
    ([' '] : List Char) ≠ [] ∧
    [] ∈ Pdf.wrap_text mwAp [' '] "F" 11 10 := by
  decide

/-- **C6** (amended).  For the PDF `draw_bullet`: the run is wrapped
against `width` minus the measured width of the marker `"- "`, exactly
one visible marker is drawn (at the position `(x, y)` of the first line), and
every emitted draw call is the font call, that marker, or a line drawn at
`x + markerWidth` — so continuation text starts at the same x-position as
the text of the first line (by x-offset; the raster variant instead wraps
against a fixed 40-unit allowance and prefixes marker strings). -/
theorem draw_bullet_marker_layout (mw : MW) (t : List Char) (x y width : ℚ)
    (fn : String) (fs leading : ℚ) :
    (∃ l0 rest,
      Pdf.wrap_text mw t fn fs (width - mw Pdf.bulletStr fn fs) = l0 :: rest ∧
      (Pdf.draw_bullet mw t x y width fn fs leading).1 =
        Pdf.Prim.setFont fn fs ::
          Pdf.Prim.drawString x y Pdf.bulletStr ::
          Pdf.Prim.drawString (x + mw Pdf.bulletStr fn fs) y l0 ::
          (Pdf.drawLinesAt (x + mw Pdf.bulletStr fn fs) leading
            (y - leading) rest).1) ∧
    ((Pdf.draw_bullet mw t x y width fn fs leading).1.countP
        Pdf.isMarkerPrim = 1) ∧
    (∀ p ∈ (Pdf.draw_bullet mw t x y width fn fs leading).1,
      p = Pdf.Prim.setFont fn fs ∨
      p = Pdf.Prim.drawString x y Pdf.bulletStr ∨
      ∃ b s, p = Pdf.Prim.drawString (x + mw Pdf.bulletStr fn fs) b s) := by
  obtain ⟨l0, rest, heq⟩ :=
    Pdf.wrap_text_eq_cons mw t fn fs (width - mw Pdf.bulletStr fn fs)
  have hnb : ∀ l ∈ l0 :: rest, l ≠ Pdf.bulletStr := by
    intro l hl
    refine Pdf.wrap_text_ne_bulletStr mw t fn fs
      (width - mw Pdf.bulletStr fn fs) l ?_
    rw [heq]
    exact hl
  have hbp : (Pdf.draw_bullet mw t x y width fn fs leading).1 =
      Pdf.Prim.setFont fn fs ::
        Pdf.Prim.drawString x y Pdf.bulletStr ::
        Pdf.Prim.drawString (x + mw Pdf.bulletStr fn fs) y l0 ::
        (Pdf.drawLinesAt (x + mw Pdf.bulletStr fn fs) leading
          (y - leading) rest).1 := by
    simp only [Pdf.draw_bullet, heq]
  refine ⟨⟨l0, rest, heq, hbp⟩, ?_, ?_⟩
  · have h0 : (Pdf.drawLinesAt (x + mw Pdf.bulletStr fn fs) leading
        (y - leading) rest).1.countP Pdf.isMarkerPrim = 0 := by
      rw [List.countP_eq_zero]
      intro p hp
      obtain ⟨b, s, hps, hs⟩ :=
        Pdf.drawLinesAt_mem (x + mw Pdf.bulletStr fn fs) leading rest
          (y - leading) p hp
      subst hps
      have : s ≠ Pdf.bulletStr := hnb s (by simp [hs])
      simp [Pdf.isMarkerPrim, this]
    have hm3 : Pdf.isMarkerPrim
        (Pdf.Prim.drawString (x + mw Pdf.bulletStr fn fs) y l0) = false := by
      have : l0 ≠ Pdf.bulletStr := hnb l0 (by simp)
      simp [Pdf.isMarkerPrim, this]
    rw [hbp]
    rw [List.countP_cons, List.countP_cons, List.countP_cons, h0, hm3]
    simp [Pdf.isMarkerPrim]
  · intro p hp
    rw [hbp] at hp
    rcases List.mem_cons.mp hp with h | hp2
    · exact Or.inl h
    rcases List.mem_cons.mp hp2 with h | hp3
    · exact Or.inr (Or.inl h)
    rcases List.mem_cons.mp hp3 with h | hp4
    · exact Or.inr (Or.inr ⟨y, l0, h⟩)
    · obtain ⟨b, s, hps, _⟩ :=
        Pdf.drawLinesAt_mem (x + mw Pdf.bulletStr fn fs) leading rest
          (y - leading) p hp4
      exact Or.inr (Or.inr ⟨b, s, hps⟩)

/-- Witness for C6: the bullet draw of `"aa bb"` at a concrete position
emits exactly one visible marker. -/
theorem draw_bullet_marker_layout_witness :
    (Pdf.draw_bullet mwAp runAabb 5 7 2200 "F" 11 13).1.countP
      Pdf.isMarkerPrim = 1 :=
  (draw_bullet_marker_layout mwAp runAabb 5 7 2200 "F" 11 13).2.1

/-- **C6 counterexample**: in the raster `draw_section`, the run
`"aa bb"` is wrapped against the fixed allowance
`content_w − inner_pad·2 − 40` and is broken into two bullet lines, even
though wrapping against `contentWidth` minus the measured marker width
(here 31 ≠ 40) would keep it on one line — so the raster variant does not
wrap against `contentWidth − bulletMarkerWidth` as claimed. -/
theorem draw_bullet_marker_layout_counterexample :
    Imagegen.sectionTextLines mwA "F" [runAabb] true
      = [Imagegen.bulletMarker ++ tokAa, Imagegen.contMarker ++ tokBb] ∧
    Imagegen.wrap_text mwA runAabb "F"
      (Imagegen.content_w - Imagegen.inner_pad * 2
        - mwA Imagegen.bulletMarker "F")
      = [runAabb] ∧
    mwA Imagegen.bulletMarker "F" ≠ 40 := by
  have hmarker : mwA Imagegen.bulletMarker "F" = 31 := by
    norm_num [mwA, Imagegen.bulletMarker, cwA_bullet, cwA_space]
  have hrun : mwA runAabb "F" = 2137 := by
    norm_num [mwA, runAabb, cwA_a, cwA_b, cwA_space]
  have haa : mwA tokAa "F" = 1068 := by
    norm_num [mwA, tokAa, cwA_a]
  have hsplit : pySplit runAabb = [tokAa, tokBb] := by decide
  have hstrip1 : pyStrip ([] ++ ' ' :: tokAa) = tokAa := by decide
  have hstrip2 : pyStrip (tokAa ++ ' ' :: tokBb) = runAabb := by decide
  refine ⟨?_, ?_, ?_⟩
  · show Imagegen.sectionTextLines mwA "F" [runAabb] true = _
    rw [Imagegen.sectionTextLines]
    simp only [if_pos rfl, List.map_cons, List.map_nil]
    rw [show Imagegen.wrap_text mwA runAabb "F"
        (Imagegen.content_w - Imagegen.inner_pad * 2 - 40) = [tokAa, tokBb] from ?_]
    · simp [Imagegen.bulletMarker, Imagegen.contMarker]
    · rw [Imagegen.wrap_text, hsplit]
      rw [Imagegen.wrapAux, hstrip1]
      rw [if_pos (by rw [haa]; norm_num [Imagegen.content_w, Imagegen.margin,
        Imagegen.canvasW, Imagegen.inner_pad])]
      rw [Imagegen.wrapAux, hstrip2]
      rw [if_neg (by rw [hrun]; norm_num [Imagegen.content_w, Imagegen.margin,
        Imagegen.canvasW, Imagegen.inner_pad])]
      rw [Imagegen.wrapAux]
      simp [tokAa, tokBb]
  · rw [hmarker]
    rw [Imagegen.wrap_text, hsplit]
    rw [Imagegen.wrapAux, hstrip1]
    rw [if_pos (by rw [haa]; norm_num [Imagegen.content_w, Imagegen.margin,
      Imagegen.canvasW, Imagegen.inner_pad])]
    rw [Imagegen.wrapAux, hstrip2]
    rw [if_pos (by rw [hrun]; norm_num [Imagegen.content_w, Imagegen.margin,
      Imagegen.canvasW, Imagegen.inner_pad])]
    rw [Imagegen.wrapAux]
    simp [runAabb]
  · rw [hmarker]
    norm_num
